import Mathlib

/-!
Verification of the roll-combination core of the Genshin artifact calculator.

Embedded sources:
* `src/app/utils/find-combinations.js` — `round1`, `subsetSum`, `findCombos`.
* `src/unnamed/part_000` (first document, the rating utility `rate-power.js`) —
  `ratePower` and the test artifact.

Modelling conventions:
* JS numbers are modelled as exact rationals (`ℚ`).  A JS number that may be
  `NaN` (the result of a failed `Number(...)` coercion) is modelled as
  `Option ℚ`, with `none` standing for `NaN`; the IEEE comparisons `===` and
  `>=` are false whenever one side is `NaN`, which is captured by `jsEq` and
  `jsGe` below.
* The lookup tables `DECIMAL_STATS`, `POSSIBLE_SUBSTAT_ROLLS` and
  `SUBSTAT_WEIGHTING` live in `app/data/artifact-data.js`, which is not among
  the sources; following the spec they are treated as injected configuration
  (`ArtifactData` below).
-/

/-- JS `Math.round`: rounds to the nearest integer, halves toward positive
infinity (`Math.round(0.5) = 1`, `Math.round(-0.5) = -0`), which on exact
rationals is `⌊x + 1/2⌋`. -/
def mathRound (x : ℚ) : ℤ := ⌊x + 1/2⌋

/-- from find-combinations.js: `const round1 = (n) => { return Math.round(n * 10) / 10; }`. -/
def round1 (n : ℚ) : ℚ := (mathRound (n * 10) : ℚ) / 10

/-- JS strict equality `===` on numbers; `none` stands for `NaN`, and any
comparison involving `NaN` is false. -/
def jsEq (a b : Option ℚ) : Bool :=
  match a, b with
  | some x, some y => decide (x = y)
  | _, _ => false

/-- JS `>=` on numbers; any comparison involving `NaN` is false. -/
def jsGe (a b : Option ℚ) : Bool :=
  match a, b with
  | some x, some y => decide (y ≤ x)
  | _, _ => false

/-- the `sum` computed at the head of `subsetSum`:
`oneDecimal ? round1(partials.reduce((acc, n) => (acc + n), 0)) : Math.round(partials.reduce(...))`.
The JS `reduce` is a left fold over `+` starting at `0`, which on rationals
equals `List.sum`. -/
def roundedSum (oneDecimal : Bool) (partials : List ℚ) : ℚ :=
  if oneDecimal then round1 partials.sum else (mathRound partials.sum : ℚ)

/-- from find-combinations.js lines 12–31, the recursive search.  The JS body
is, in order: push `partials` onto `found` when `sum === target`; `return` when
`sum >= target`; `return` when `partials.length > 6`; otherwise recurse on
every `roll` of `possibleRolls` with `[...partials, roll]`, appending results
in discovery order.  Here the accumulating `found` array becomes the returned
list.  The length guard is a dependent `if` only so that Lean can see the
termination measure `7 - partials.length`; the JS condition is the same. -/
def subsetSum (possibleRolls : List ℚ) (target : Option ℚ) (oneDecimal : Bool)
    (partials : List ℚ) : List (List ℚ) :=
  let sum := roundedSum oneDecimal partials
  let found := if jsEq (some sum) target then [partials] else []
  if jsGe (some sum) target then found
  else if hlen : partials.length > 6 then found
  else found ++ possibleRolls.flatMap
      (fun roll => subsetSum possibleRolls target oneDecimal (partials ++ [roll]))
termination_by 7 - partials.length
decreasing_by
  simp only [List.length_append, List.length_cons, List.length_nil]
  omega

/-- fuel-indexed copy of `subsetSum`, structurally recursive so that concrete
runs reduce inside the kernel; `subsetSumFuel_eq_subsetSum` below shows any
fuel of at least `8 - partials.length` computes exactly `subsetSum` (the
recursion depth is bounded: recursion happens only at `partials.length ≤ 6`). -/
def subsetSumFuel (fuel : Nat) (possibleRolls : List ℚ) (target : Option ℚ)
    (oneDecimal : Bool) (partials : List ℚ) : List (List ℚ) :=
  match fuel with
  | 0 => []
  | fuel + 1 =>
    let sum := roundedSum oneDecimal partials
    let found := if jsEq (some sum) target then [partials] else []
    if jsGe (some sum) target then found
    else if partials.length > 6 then found
    else found ++ possibleRolls.flatMap
        (fun roll => subsetSumFuel fuel possibleRolls target oneDecimal (partials ++ [roll]))

/-- from find-combinations.js: `combo.sort((n1, n2) => (n1 - n2))`, the
ascending numeric sort of one combination.  Any comparison sort computes the
same list (the sorted permutation of a list of rationals is unique), so we use
insertion sort. -/
def sortCombo (combo : List ℚ) : List ℚ := List.insertionSort (· ≤ ·) combo

/-- from find-combinations.js lines 34–52, with the rounding mode already
computed (the claims quantify over the mode; `findCombosStat` below adds the
`DECIMAL_STATS.includes(stat)` dispatch).  `target` is the result of the
`Number(target)` coercion: `none` models `NaN`.

The post-processing of lines 48–51 writes the (in-place sorted) raw
combinations into an object keyed by the combination itself
(`combinationsFound[combo] = i`) and maps the stored indices back through
`combinationsFoundRaw`: string keys of distinct numeric lists are distinct and
every stored index points at a list equal to its key, so the returned array
holds each distinct sorted combination exactly once.  We model this
sort-and-group step by `List.dedup` of the sorted raw list; it keeps one
representative per distinct combination, as the object does.  (Only the order
across combinations can differ — the object enumerates integer-like keys first
and other keys in insertion order, `dedup` keeps last occurrences — and the
spec explicitly leaves that order unspecified.) -/
def findCombos (possibleRolls : List ℚ) (target : Option ℚ) (oneDecimal : Bool) :
    List (List ℚ) :=
  let combinationsFoundRaw := subsetSum possibleRolls target oneDecimal []
  (combinationsFoundRaw.map sortCombo).dedup

/-- the mode dispatch at find-combinations.js line 41:
`const oneDecimal = DECIMAL_STATS.includes(stat);`.  `DECIMAL_STATS` is a list
of stat-name strings; the `stat` argument may be `undefined` (modelled `none`),
and `includes(undefined)` on a list of strings is `false`. -/
def includesStat (table : List String) (stat : Option String) : Bool :=
  match stat with
  | some s => decide (s ∈ table)
  | none => false

/-- find-combinations.js `findCombos(possibleRolls, target, stat)` with the
configuration table `DECIMAL_STATS` passed explicitly (its defining module is
not among the sources). -/
def findCombosStat (DECIMAL_STATS : List String) (possibleRolls : List ℚ)
    (target : Option ℚ) (stat : Option String) : List (List ℚ) :=
  findCombos possibleRolls target (includesStat DECIMAL_STATS stat)

/-- Modelled from the spec: the "rounded target" of §4.1/§8 — the rounding
function selected by the mode, applied to the target (one-decimal: nearest 0.1;
whole-number: nearest integer).  The code itself never rounds the target; this
definition exists to state the spec's claims. -/
def specRound (oneDecimal : Bool) (t : ℚ) : ℚ :=
  if oneDecimal then round1 t else (mathRound t : ℚ)

/-- one substat record of an artifact, as handled by rate-power.js.  `stat` and
`amount` come with the input (`amount` is the numeric value of the observed
string; `none` would model a `NaN` coercion).  `weight` and `numRolls` model
the properties the estimator assigns on the record: `none` means the property
is absent, `some v` that it was assigned `v` (`weight` may be assigned the
`undefined` result of a lookup miss, hence the nested `Option`). -/
structure Substat where
  stat : String
  amount : Option ℚ
  weight : Option (Option ℚ)
  numRolls : Option (List (List ℚ))
deriving DecidableEq

/-- the scored entity rate-power.js works on; `ratePower` reads and writes only
`substats`, so the remaining artifact fields are irrelevant to the claims and
are omitted. -/
structure Artifact where
  substats : List Substat
deriving DecidableEq

/-- Modelled from the spec: the configuration module `app/data/artifact-data.js`
is not among the sources.  Per §6 of the spec it supplies three lookup tables —
kind → one-decimal classification (`DECIMAL_STATS`, a list of stat names),
kind → legal increment values, and kind → scoring weight; the latter two may
miss a kind (JS property access then yields `undefined`, modelled `none`). -/
structure ArtifactData where
  DECIMAL_STATS : List String
  POSSIBLE_SUBSTAT_ROLLS : String → Option (List ℚ)
  SUBSTAT_WEIGHTING : String → Option ℚ

/-- a thrown JS exception. -/
inductive JsError where
  | typeError : String → JsError
deriving DecidableEq

/-- the `stat` argument rate-power.js passes to the finder: the call
`findCombos(POSSIBLE_SUBSTAT_ROLLS[sub.stat], sub.amount)` has no third
argument, so inside `findCombos` the parameter `stat` is `undefined`. -/
def ratePowerStatArg : Option String := none

/-- from the first document of src/unnamed/part_000 (rate-power.js):

```
const substats = artifact.substats.map(sub => {
  sub.weight = SUBSTAT_WEIGHTING[sub.stat];
  sub.numRolls = findCombos(POSSIBLE_SUBSTAT_ROLLS[sub.stat], sub.amount);
});
```

The callback mutates each substat object in place.  The binding `findCombos`
is obtained by `const { findCombos } = require("../find-combinations.js")`,
but that module sets `module.exports = findCombos` (the bare function), so the
destructured property is `undefined` and the very first call raises
`TypeError: findCombos is not a function`.  Consequently, for a non-empty
substat list the first substat has its `weight` property assigned (the
argument `SUBSTAT_WEIGHTING[sub.stat]` and the property write happen before
the failing call) and the exception then propagates out of `ratePower`;
no further substat is touched.  The model returns the (possibly mutated)
entity together with the propagated error, if any. -/
def ratePower (data : ArtifactData) (artifact : Artifact) : Artifact × Option JsError :=
  match artifact.substats with
  | [] => (artifact, none)
  | sub :: rest =>
    let sub1 : Substat := { sub with weight := some (data.SUBSTAT_WEIGHTING sub.stat) }
    ({ artifact with substats := sub1 :: rest },
     some (JsError.typeError "findCombos is not a function"))

/-- the `TEST_ARTIFACT` of rate-power.js (its substats; amounts are the numeric
values of the quoted strings). -/
def testArtifact : Artifact :=
  { substats :=
      [ { stat := "critRate", amount := some (128/10), weight := none, numRolls := none },
        { stat := "critDmg",  amount := some 14,       weight := none, numRolls := none },
        { stat := "Def%",     amount := some (58/10),  weight := none, numRolls := none },
        { stat := "Def",      amount := some 21,       weight := none, numRolls := none } ] }

/-- Modelled from the spec: a minimal sample configuration for concrete runs of
the estimator model — the spec does not list the tables' contents, so this
instance only fixes what the concrete claims need: kind `critDmg` is known to
both value tables (weight 1, single roll value 0.7) and the one-decimal
classification holds `critRate` and `critDmg`; every other kind is absent. -/
def sampleData : ArtifactData :=
  { DECIMAL_STATS := ["critRate", "critDmg"]
    POSSIBLE_SUBSTAT_ROLLS := fun s => if s = "critDmg" then some [7/10] else none
    SUBSTAT_WEIGHTING := fun s => if s = "critDmg" then some 1 else none }

/-- an entity whose first attribute kind `mystery` is absent from the lookup
tables and whose second attribute kind `critDmg` is known. -/
def mysteryArtifact : Artifact :=
  { substats :=
      [ { stat := "mystery", amount := some 1, weight := none, numRolls := none },
        { stat := "critDmg", amount := some (7/10), weight := none, numRolls := none } ] }

lemma mathRound_intCast (k : ℤ) : mathRound (k : ℚ) = k := by
  unfold mathRound
  rw [add_comm, Int.floor_add_int]
  norm_num

lemma mathRound_mono {x y : ℚ} (h : x ≤ y) : mathRound x ≤ mathRound y :=
  Int.floor_le_floor (add_le_add_right h _)

lemma round1_mono {x y : ℚ} (h : x ≤ y) : round1 x ≤ round1 y := by
  unfold round1
  have h10 : x * 10 ≤ y * 10 := by nlinarith
  have := mathRound_mono h10
  have : ((mathRound (x * 10) : ℚ)) ≤ ((mathRound (y * 10) : ℚ)) := by exact_mod_cast this
  linarith

lemma round1_idem (x : ℚ) : round1 (round1 x) = round1 x := by
  unfold round1
  rw [div_mul_cancel₀ _ (by norm_num : (10:ℚ) ≠ 0), mathRound_intCast]

lemma roundedSum_mono {d : Bool} {p q : List ℚ} (h : p.sum ≤ q.sum) :
    roundedSum d p ≤ roundedSum d q := by
  unfold roundedSum
  cases d with
  | false => simpa using Int.cast_le.mpr (mathRound_mono h)
  | true => simpa using round1_mono h

/-- whatever the search can compare equal to the target is a fixed point of the
mode's rounding, so a matched target is its own rounded form. -/
lemma specRound_eq_of_roundedSum {d : Bool} {p : List ℚ} {t : ℚ}
    (h : roundedSum d p = t) : specRound d t = t := by
  unfold roundedSum at h
  unfold specRound
  cases d with
  | false =>
    simp only [Bool.false_eq_true, if_false] at h ⊢
    rw [← h, mathRound_intCast]
  | true =>
    simp only [if_true] at h ⊢
    rw [← h, round1_idem]

/-- any fuel beyond the residual depth bound computes the fuel-free recursion:
the search tree really is finite, of depth at most `8 - partials.length`. -/
lemma subsetSumFuel_eq_subsetSum (pr : List ℚ) (t : Option ℚ) (d : Bool) :
    ∀ (fuel : ℕ) (partials : List ℚ), 1 ≤ fuel → 8 ≤ partials.length + fuel →
      subsetSumFuel fuel pr t d partials = subsetSum pr t d partials := by
  intro fuel
  induction fuel with
  | zero => intro partials h1 _; omega
  | succ fuel ih =>
    intro partials _ h8
    rw [subsetSum]
    simp only [subsetSumFuel]
    split_ifs
    all_goals
      first
        | rfl
        | (refine congrArg₂ (· ++ ·) rfl (List.flatMap_congr ?_)
           intro roll _
           exact ih (partials ++ [roll]) (by omega)
             (by simp only [List.length_append, List.length_cons, List.length_nil]; omega))

@[simp] lemma jsEq_some_some (x y : ℚ) : jsEq (some x) (some y) = decide (x = y) := rfl

@[simp] lemma jsEq_none_right (a : Option ℚ) : jsEq a none = false := by cases a <;> rfl

@[simp] lemma jsGe_some_some (x y : ℚ) : jsGe (some x) (some y) = decide (y ≤ x) := rfl

@[simp] lemma jsGe_none_right (a : Option ℚ) : jsGe a none = false := by cases a <;> rfl

/-- characterisation of the recorded sequences for a numeric (non-NaN) target:
starting from `partials = q`, the search records exactly the extensions `p` of
`q` by candidate values whose rounded sum equals the raw target, such that
every intermediate node kept the rounded sum strictly below the target and its
length at most 6. -/
lemma mem_subsetSumFuel {pr : List ℚ} {t : ℚ} {d : Bool} {p : List ℚ} :
    ∀ (fuel : ℕ) (q : List ℚ), 8 ≤ q.length + fuel → q.length ≤ 7 →
      (p ∈ subsetSumFuel fuel pr (some t) d q ↔
        ∃ ext, p = q ++ ext ∧ (∀ x ∈ ext, x ∈ pr) ∧ roundedSum d p = t ∧
          ∀ i, q.length ≤ i → i < p.length → roundedSum d (p.take i) < t ∧ i ≤ 6) := by
  intro fuel
  induction fuel with
  | zero => intro q h8 h7; omega
  | succ fuel ih =>
    intro q h8 h7
    simp only [subsetSumFuel, jsEq_some_some, jsGe_some_some, decide_eq_true_eq]
    by_cases hge : t ≤ roundedSum d q
    · rw [if_pos hge]
      by_cases heq : roundedSum d q = t
      · rw [if_pos heq, List.mem_singleton]
        constructor
        · rintro rfl
          exact ⟨[], by simp, by simp, heq, fun i hi1 hi2 => by omega⟩
        · rintro ⟨ext, hp, _hext, _hsum, hpre⟩
          cases ext with
          | nil => simpa using hp
          | cons r ext' =>
            exfalso
            have hql : q.length < p.length := by
              rw [hp, List.length_append]; simp
            have := (hpre q.length le_rfl hql).1
            rw [hp, List.take_left] at this
            rw [heq] at this
            exact lt_irrefl t this
      · rw [if_neg heq]
        simp only [List.not_mem_nil, false_iff]
        rintro ⟨ext, hp, _hext, hsum, hpre⟩
        cases ext with
        | nil => rw [hp, List.append_nil] at hsum; exact heq hsum
        | cons r ext' =>
          have hql : q.length < p.length := by
            rw [hp, List.length_append]; simp
          have := (hpre q.length le_rfl hql).1
          rw [hp, List.take_left] at this
          exact absurd hge (not_le.mpr this)
    · rw [if_neg hge]
      have hslt : roundedSum d q < t := lt_of_not_le hge
      have hsne : roundedSum d q ≠ t := ne_of_lt hslt
      by_cases hlen : q.length > 6
      · rw [if_pos hlen, if_neg hsne]
        simp only [List.not_mem_nil, false_iff]
        rintro ⟨ext, hp, _hext, hsum, hpre⟩
        cases ext with
        | nil => rw [hp, List.append_nil] at hsum; exact hsne hsum
        | cons r ext' =>
          have hql : q.length < p.length := by
            rw [hp, List.length_append]; simp
          exact absurd (hpre q.length le_rfl hql).2 (by omega)
      · rw [if_neg hlen, if_neg hsne, List.nil_append, List.mem_flatMap]
        have hstep : ∀ roll : ℚ,
            p ∈ subsetSumFuel fuel pr (some t) d (q ++ [roll]) ↔
              ∃ ext, p = (q ++ [roll]) ++ ext ∧ (∀ x ∈ ext, x ∈ pr) ∧
                roundedSum d p = t ∧
                ∀ i, (q ++ [roll]).length ≤ i → i < p.length →
                  roundedSum d (p.take i) < t ∧ i ≤ 6 := by
          intro roll
          exact ih (q ++ [roll])
            (by simp only [List.length_append, List.length_cons, List.length_nil]; omega)
            (by simp only [List.length_append, List.length_cons, List.length_nil]; omega)
        constructor
        · rintro ⟨roll, hroll, hmem⟩
          rcases (hstep roll).mp hmem with ⟨ext', hp, hext', hsum, hpre⟩
          refine ⟨roll :: ext', by rw [hp]; simp, ?_, hsum, ?_⟩
          · intro x hx
            rcases List.mem_cons.mp hx with rfl | hx'
            · exact hroll
            · exact hext' x hx'
          · intro i hi1 hi2
            rcases Nat.lt_or_ge i (q.length + 1) with hi | hi
            · have hiq : i = q.length := by omega
              subst hiq
              constructor
              · rw [hp]
                rw [show ((q ++ [roll]) ++ ext' : List ℚ) = q ++ ([roll] ++ ext') from by simp,
                  List.take_left]
                exact hslt
              · omega
            · exact hpre i (by simpa using hi) hi2
        · rintro ⟨ext, hp, hext, hsum, hpre⟩
          cases ext with
          | nil =>
            rw [hp, List.append_nil] at hsum
            exact absurd hsum hsne
          | cons r ext' =>
            refine ⟨r, hext r (by simp), (hstep r).mpr
              ⟨ext', by rw [hp]; simp, fun x hx => hext x (by simp [hx]), hsum, ?_⟩⟩
            intro i hi1 hi2
            exact hpre i (by simp at hi1; omega) hi2

/-- the sequences recorded by the top-level call of the search. -/
lemma mem_subsetSum_nil {pr : List ℚ} {t : ℚ} {d : Bool} {p : List ℚ} :
    p ∈ subsetSum pr (some t) d [] ↔
      (∀ x ∈ p, x ∈ pr) ∧ roundedSum d p = t ∧
        ∀ i, i < p.length → roundedSum d (p.take i) < t ∧ i ≤ 6 := by
  rw [← subsetSumFuel_eq_subsetSum pr (some t) d 8 [] (by norm_num) (by simp)]
  rw [mem_subsetSumFuel 8 [] (by simp) (by simp)]
  constructor
  · rintro ⟨ext, hp, hext, hsum, hpre⟩
    rw [hp, List.nil_append]
    exact ⟨hext, by rwa [hp, List.nil_append] at hsum,
      fun i hi => by
        have := hpre i (Nat.zero_le i) (by rwa [hp, List.nil_append])
        rwa [hp, List.nil_append] at this⟩
  · rintro ⟨hext, hsum, hpre⟩
    exact ⟨p, by simp, hext, hsum, fun i _ hi => hpre i hi⟩

/-- with a `NaN` target every comparison is false, so nothing is recorded and
nothing is pruned by sum; the search just walks its depth-bounded tree and
returns nothing. -/
lemma subsetSumFuel_none (pr : List ℚ) (d : Bool) :
    ∀ (fuel : ℕ) (q : List ℚ), subsetSumFuel fuel pr none d q = [] := by
  intro fuel
  induction fuel with
  | zero => intro q; rfl
  | succ fuel ih =>
    intro q
    simp only [subsetSumFuel, jsEq_none_right, jsGe_none_right, Bool.false_eq_true,
      if_false, List.nil_append]
    split_ifs with h
    · rfl
    · simp only [List.flatMap_eq_nil_iff]
      intro roll _
      exact ih (q ++ [roll])

lemma subsetSum_none (pr : List ℚ) (d : Bool) (q : List ℚ) (h : q.length ≤ 7) :
    subsetSum pr none d q = [] := by
  rw [← subsetSumFuel_eq_subsetSum pr none d (8 - q.length) q (by omega) (by omega)]
  exact subsetSumFuel_none pr d _ q

lemma sortCombo_perm (c : List ℚ) : (sortCombo c).Perm c := List.perm_insertionSort _ c

lemma sortCombo_sorted (c : List ℚ) : (sortCombo c).Sorted (· ≤ ·) :=
  List.sorted_insertionSort _ c

lemma sortCombo_length (c : List ℚ) : (sortCombo c).length = c.length :=
  (sortCombo_perm c).length_eq

/-- membership in the final result: exactly the sorted forms of recorded paths. -/
lemma mem_findCombos {pr : List ℚ} {T : Option ℚ} {d : Bool} {c : List ℚ} :
    c ∈ findCombos pr T d ↔ ∃ p ∈ subsetSum pr T d [], c = sortCombo p := by
  unfold findCombos
  rw [List.mem_dedup, List.mem_map]
  constructor
  · rintro ⟨p, hp, rfl⟩; exact ⟨p, hp, rfl⟩
  · rintro ⟨p, hp, rfl⟩; exact ⟨p, hp, rfl⟩

lemma findCombos_nodup (pr : List ℚ) (T : Option ℚ) (d : Bool) :
    (findCombos pr T d).Nodup := List.nodup_dedup _

lemma sorted_of_mem_findCombos {pr : List ℚ} {T : Option ℚ} {d : Bool} {c : List ℚ}
    (h : c ∈ findCombos pr T d) : c.Sorted (· ≤ ·) := by
  rcases mem_findCombos.mp h with ⟨p, _, rfl⟩
  exact sortCombo_sorted p

/-- evaluation form of `findCombos`: the well-founded recursion replaced by its
fuel-indexed equal, so that concrete calls reduce inside the kernel. -/
lemma findCombos_eval (pr : List ℚ) (T : Option ℚ) (d : Bool) :
    findCombos pr T d = ((subsetSumFuel 8 pr T d []).map sortCombo).dedup := by
  unfold findCombos
  rw [subsetSumFuel_eq_subsetSum pr T d 8 [] (by norm_num) (by simp)]

/-- in an ascending-sorted list, fewer than `k + 1` elements lie strictly below
the element at index `k`. -/
lemma length_filter_lt_get {s : List ℚ} (hs : s.Sorted (· ≤ ·)) (k : ℕ) (hk : k < s.length) :
    (s.filter (fun x => decide (x < s[k]))).length ≤ k := by
  have hsplit : s.take k ++ s.drop k = s := List.take_append_drop k s
  have hdrop : ∀ x ∈ s.drop k, s[k] ≤ x := by
    intro x hx
    rw [List.mem_iff_getElem] at hx
    rcases hx with ⟨j, hj, rfl⟩
    have hkj : k + j < s.length := by
      have := List.length_drop k s ▸ hj
      omega
    rw [List.getElem_drop]
    have hab : (⟨k, hk⟩ : Fin s.length) ≤ ⟨k + j, hkj⟩ := by
      simp only [Fin.mk_le_mk]
      omega
    simpa using hs.rel_get_of_le hab
  have hnil : (s.drop k).filter (fun x => decide (x < s[k])) = [] := by
    rw [List.filter_eq_nil_iff]
    intro a ha
    simp only [decide_eq_true_eq]
    exact not_lt.mpr (hdrop a ha)
  calc (s.filter (fun x => decide (x < s[k]))).length
      = ((s.take k ++ s.drop k).filter (fun x => decide (x < s[k]))).length := by rw [hsplit]
    _ = ((s.take k).filter _).length + ((s.drop k).filter _).length := by
        rw [List.filter_append, List.length_append]
    _ ≤ (s.take k).length + 0 := by
        rw [hnil]
        exact Nat.add_le_add (List.length_filter_le _ _) le_rfl
    _ ≤ k := by
        rw [List.length_take]
        omega

/-- the `k` smallest elements of a multiset (the first `k` of its sorted list)
have the least sum among all of its size-`k` sub-multisets. -/
lemma take_sorted_sum_le {s : List ℚ} (hs : s.Sorted (· ≤ ·)) :
    ∀ (k : ℕ) (q : Multiset ℚ), q ≤ (s : Multiset ℚ) → Multiset.card q = k →
      k ≤ s.length → (s.take k).sum ≤ q.sum := by
  intro k
  induction k with
  | zero =>
    intro q _ hcard _
    rw [Multiset.card_eq_zero] at hcard
    subst hcard
    simp
  | succ k ih =>
    intro q hq hcard hk
    have hk' : k < s.length := by omega
    have hex : ∃ y ∈ q, s[k] ≤ y := by
      by_contra hcon
      push_neg at hcon
      have hqf : q ≤ Multiset.filter (fun x => x < s[k]) ↑s :=
        Multiset.le_filter.mpr ⟨hq, fun a ha => hcon a ha⟩
      have hcf := Multiset.card_le_card hqf
      rw [hcard, Multiset.filter_coe, Multiset.coe_card] at hcf
      have := length_filter_lt_get hs k hk'
      omega
    rcases hex with ⟨y, hy, hsy⟩
    have herase : q.erase y ≤ (s : Multiset ℚ) := le_trans (Multiset.erase_le y q) hq
    have hcarde : Multiset.card (q.erase y) = k := by
      rw [Multiset.card_erase_of_mem hy, hcard]
      rfl
    have hih := ih (q.erase y) herase hcarde (by omega)
    have hsum : (s.take (k+1)).sum = (s.take k).sum + s[k] := List.sum_take_succ s k hk'
    have hq' : q.sum = y + (q.erase y).sum := by
      conv_lhs => rw [← Multiset.cons_erase hy]
      rw [Multiset.sum_cons]
    rw [hsum, hq']
    linarith

/-- sorting ascending can only decrease each prefix sum: the first `k` of the
sorted form are the `k` smallest of the original sequence. -/
lemma sortCombo_take_sum_le (p : List ℚ) (k : ℕ) (hk : k ≤ p.length) :
    ((sortCombo p).take k).sum ≤ (p.take k).sum := by
  have hperm : ((sortCombo p : List ℚ) : Multiset ℚ) = (p : Multiset ℚ) :=
    Multiset.coe_eq_coe.mpr (sortCombo_perm p)
  have hsub : ((p.take k : List ℚ) : Multiset ℚ) ≤ ((sortCombo p : List ℚ) : Multiset ℚ) := by
    rw [hperm]
    exact Multiset.coe_le.mpr (List.take_sublist k p).subperm
  have hcard : Multiset.card ((p.take k : List ℚ) : Multiset ℚ) = k := by
    rw [Multiset.coe_card, List.length_take]
    omega
  have hlen : k ≤ (sortCombo p).length := by
    rw [sortCombo_length]
    omega
  have := take_sorted_sum_le (sortCombo_sorted p) k _ hsub hcard hlen
  simpa [Multiset.sum_coe] using this

/-- every returned combination has at most 7 elements (the length guard fires
only after a node of length 7 has already been allowed to record itself). -/
lemma length_le_seven_of_mem_findCombos {pr : List ℚ} {T : Option ℚ} {d : Bool} {c : List ℚ}
    (h : c ∈ findCombos pr T d) : c.length ≤ 7 := by
  rcases mem_findCombos.mp h with ⟨p, hp, rfl⟩
  rw [sortCombo_length]
  cases T with
  | none =>
    rw [subsetSum_none pr d [] (by simp)] at hp
    simp at hp
  | some t =>
    rcases mem_subsetSum_nil.mp hp with ⟨_, _, hpre⟩
    by_contra hlen
    push_neg at hlen
    have := (hpre 7 (by omega)).2
    omega

/-- any sequence of at most 7 candidates that reaches the target with all
proper prefixes strictly below it is found, in sorted form. -/
lemma sortCombo_mem_findCombos {pr : List ℚ} {t : ℚ} {d : Bool} {p : List ℚ}
    (hmem : ∀ x ∈ p, x ∈ pr) (hlen : p.length ≤ 7) (hsum : roundedSum d p = t)
    (hpre : ∀ i, i < p.length → roundedSum d (p.take i) < t) :
    sortCombo p ∈ findCombos pr (some t) d :=
  mem_findCombos.mpr
    ⟨p, mem_subsetSum_nil.mpr ⟨hmem, hsum, fun i hi => ⟨hpre i hi, by omega⟩⟩, rfl⟩

/-- distinct entries of the result are distinct even as multisets. -/
lemma findCombos_eq_of_perm {pr : List ℚ} {T : Option ℚ} {d : Bool} {c₁ c₂ : List ℚ}
    (h₁ : c₁ ∈ findCombos pr T d) (h₂ : c₂ ∈ findCombos pr T d) (hp : c₁.Perm c₂) :
    c₁ = c₂ :=
  List.eq_of_perm_of_sorted hp (sorted_of_mem_findCombos h₁) (sorted_of_mem_findCombos h₂)

/-- proper prefixes of a returned combination stay strictly below the rounded
target, and the full combination reaches it exactly. -/
lemma prefix_lt_of_mem_findCombos {pr : List ℚ} {t : ℚ} {d : Bool} {c : List ℚ}
    (hc : c ∈ findCombos pr (some t) d) :
    (∀ k, k < c.length → roundedSum d (c.take k) < specRound d t) ∧
      roundedSum d c = specRound d t := by
  rcases mem_findCombos.mp hc with ⟨p, hp, rfl⟩
  rcases mem_subsetSum_nil.mp hp with ⟨_hmem, hsum, hpre⟩
  have hfix : specRound d t = t := specRound_eq_of_roundedSum hsum
  constructor
  · intro k hk
    rw [sortCombo_length] at hk
    have h1 : ((sortCombo p).take k).sum ≤ (p.take k).sum :=
      sortCombo_take_sum_le p k (by omega)
    have h2 : roundedSum d ((sortCombo p).take k) ≤ roundedSum d (p.take k) :=
      roundedSum_mono h1
    have h3 : roundedSum d (p.take k) < t := (hpre k hk).1
    rw [hfix]
    linarith
  · have hsc : (sortCombo p).sum = p.sum := (sortCombo_perm p).sum_eq
    rw [hfix]
    unfold roundedSum at hsum ⊢
    rw [hsc]
    exact hsum

section ClaimTheorems

attribute [local semireducible] Rat.add Rat.mul Rat.inv Rat.sub Rat.ofScientific

/-- C1 counterexample: with candidate set {0.5}, whole-number mode and target 1,
the multiset {0.5, 0.5} — two elements, both drawn from the candidates, already
in ascending order — has rounded sum Math.round(1.0) = 1 equal to the rounded
target, yet the result contains it zero times: the search prunes the branch at
the one-element prefix [0.5], whose rounded sum Math.round(0.5) = 1 already
reaches the target, so the two-element multiset is never recorded. -/
theorem findCombos_misses_reachable_multiset :
    roundedSum false [(1:ℚ)/2, 1/2] = specRound false 1 ∧
      [(1:ℚ)/2, 1/2] ∉ findCombos [(1:ℚ)/2] (some 1) false := by
  refine ⟨by decide, ?_⟩
  rw [findCombos_eval]
  decide

/-- C1 (amended): a multiset is found exactly when some ordering of it keeps
every proper-prefix rounded sum strictly below the (raw, coerced) target while
the full rounded sum equals it, within the implemented length bound of 7; any
such sequence appears in the result exactly once, as its ascending-sorted form,
and distinct result entries are never equal as multisets. -/
theorem findCombos_complete_once (pr : List ℚ) (t : ℚ) (d : Bool) (p : List ℚ)
    (hmem : ∀ x ∈ p, x ∈ pr) (hlen : p.length ≤ 7) (hsum : roundedSum d p = t)
    (hpre : ∀ i, i < p.length → roundedSum d (p.take i) < t) :
    sortCombo p ∈ findCombos pr (some t) d ∧
      (findCombos pr (some t) d).Nodup ∧
      ∀ c₁ ∈ findCombos pr (some t) d, ∀ c₂ ∈ findCombos pr (some t) d,
        c₁.Perm c₂ → c₁ = c₂ := by
  refine ⟨sortCombo_mem_findCombos hmem hlen hsum hpre, findCombos_nodup _ _ _, ?_⟩
  intro c₁ h₁ c₂ h₂ hperm
  exact findCombos_eq_of_perm h₁ h₂ hperm

/-- C1 witness: candidates {1, 2}, whole-number mode, target 3; the sequence
[1, 2] satisfies the prefix condition and its sorted form occurs exactly once. -/
theorem findCombos_complete_once_witness :
    sortCombo [(1:ℚ), 2] ∈ findCombos [(1:ℚ), 2] (some 3) false :=
  (findCombos_complete_once [(1:ℚ), 2] 3 false [1, 2] (by decide) (by decide) (by decide)
    (by decide)).1

/-- C2 counterexample: with candidate set {1}, whole-number mode and target 7,
the result contains the seven-element combination [1,1,1,1,1,1,1] — the length
guard `partials.length > 6` is checked only after a node records itself, so a
length-7 node whose rounded sum equals the target is recorded. -/
theorem findCombos_contains_length_seven :
    [(1:ℚ), 1, 1, 1, 1, 1, 1] ∈ findCombos [1] (some 7) false ∧
      ([(1:ℚ), 1, 1, 1, 1, 1, 1]).length = 7 := by
  refine ⟨?_, by decide⟩
  rw [findCombos_eval]
  decide

/-- C2 (amended): every combination in the result of findCombos has length at
most 7 (not 6: the recursion stops descending past length 7, but a length-7
node may still record itself). -/
theorem findCombos_length_le_seven (pr : List ℚ) (T : Option ℚ) (d : Bool)
    (c : List ℚ) (hc : c ∈ findCombos pr T d) : c.length ≤ 7 :=
  length_le_seven_of_mem_findCombos hc

/-- C2 witness: the length-7 member of findCombos([1], 7, whole) is within the
bound. -/
theorem findCombos_length_le_seven_witness : ([(1:ℚ), 1, 1, 1, 1, 1, 1]).length ≤ 7 :=
  findCombos_length_le_seven [1] (some 7) false _ (by rw [findCombos_eval]; decide)

/-- C3 (code bug): rate-power.js calls
`findCombos(POSSIBLE_SUBSTAT_ROLLS[sub.stat], sub.amount)` with no third
argument, so inside the finder `stat` is `undefined` and the selected mode is
`DECIMAL_STATS.includes(undefined)`, i.e. whole-number rounding for every
attribute — contradicting the claimed per-kind classification for any kind in
the one-decimal table (e.g. the test artifact's `critRate`, amount 12.8).  On
top of that the imported `findCombos` binding is itself `undefined` (the module
exports the bare function, not a property), so the estimator's first call
throws before any finder result is produced. -/
theorem ratePower_wrong_rounding_mode (data : ArtifactData) (kind : String)
    (hk : kind ∈ data.DECIMAL_STATS) :
    includesStat data.DECIMAL_STATS ratePowerStatArg = false ∧
      includesStat data.DECIMAL_STATS (some kind) = true ∧
      (ratePower data testArtifact).2 =
        some (JsError.typeError "findCombos is not a function") := by
  refine ⟨rfl, ?_, rfl⟩
  simpa [includesStat] using hk

/-- C3 witness: with a one-decimal table containing `critRate`, the mode the
estimator's call site induces is whole-number anyway. -/
theorem ratePower_wrong_rounding_mode_witness :
    includesStat ["critRate"] ratePowerStatArg = false :=
  (ratePower_wrong_rounding_mode ⟨["critRate"], fun _ => none, fun _ => none⟩ "critRate"
    (by decide)).1

/-- C5 counterexample: on an entity whose first attribute kind `mystery` is
absent from the lookup tables and whose second attribute kind `critDmg` is
known, the estimator raises a TypeError (not a configuration error naming the
attribute) and produces combination evidence for no attribute at all: the
sibling `critDmg` substat's `numRolls` is never assigned. -/
theorem ratePower_no_sibling_evidence :
    sampleData.SUBSTAT_WEIGHTING "mystery" = none ∧
      (ratePower sampleData mysteryArtifact).2 ≠ none ∧
      (ratePower sampleData mysteryArtifact).1.substats.map Substat.numRolls =
        [none, none] := by
  refine ⟨rfl, by decide, rfl⟩

/-- C5 (amended): when the entity contains an attribute whose kind is absent
from the weight lookup table, the estimator surfaces an error to its caller,
but the error aborts processing: no attribute of the entity — neither the
failing one nor any sibling — receives combination evidence. -/
theorem ratePower_unknown_kind_aborts (data : ArtifactData) (a : Artifact)
    (hbad : ∃ sub ∈ a.substats, data.SUBSTAT_WEIGHTING sub.stat = none) :
    (ratePower data a).2 ≠ none ∧
      (ratePower data a).1.substats.map Substat.numRolls =
        a.substats.map Substat.numRolls := by
  rcases hbad with ⟨sub, hsub, _⟩
  cases hsubs : a.substats with
  | nil => rw [hsubs] at hsub; exact absurd hsub (List.not_mem_nil sub)
  | cons s rest =>
    unfold ratePower
    rw [hsubs]
    simp

/-- C5 witness: the concrete unknown-kind entity instantiates the amended
claim. -/
theorem ratePower_unknown_kind_aborts_witness :
    (ratePower sampleData mysteryArtifact).2 ≠ none :=
  (ratePower_unknown_kind_aborts sampleData mysteryArtifact
    ⟨{ stat := "mystery", amount := some 1, weight := none, numRolls := none },
      by decide, by decide⟩).1

/-- C4 (code bug): the search compares each rounded sum with the raw coerced
target — the target itself is never rounded, contradicting the code's own
comment ("our (rounded) target") and the spec.  Under one-decimal mode the
target 14.04 therefore matches nothing (every compared sum is a multiple of
0.1), while the allegedly equivalent target 14.0 is matched by the single
roll 14. -/
theorem findCombos_target_not_rounded :
    specRound true (1404/100) = 14 ∧
      findCombos [(14:ℚ)] (some (1404/100)) true = [] ∧
      findCombos [(14:ℚ)] (some 14) true = [[14]] := by
  refine ⟨by decide, by rw [findCombos_eval]; decide, by rw [findCombos_eval]; decide⟩

/-- C6 counterexample: a target whose numeric coercion fails becomes `NaN`;
`findCombos` then returns the empty list — an ordinary result, bit for bit the
same as the genuine empty result of an unreachable numeric target — rather
than surfacing any defined failure to the caller. -/
theorem findCombos_nan_is_ordinary_empty :
    findCombos [(1:ℚ)] none false = [] ∧ findCombos [(5:ℚ)] (some 12) false = [] := by
  refine ⟨by rw [findCombos_eval]; decide, by rw [findCombos_eval]; decide⟩

/-- C6 (amended): on a failed coercion (`NaN` target) `findCombos` does not
fail: every comparison against the `NaN` target is false, so nothing is ever
recorded (and nothing pruned by sum), and the ordinary empty result is
returned. -/
theorem findCombos_nan_empty (pr : List ℚ) (d : Bool) : findCombos pr none d = [] := by
  unfold findCombos
  rw [subsetSum_none pr d [] (by simp)]
  rfl

/-- C7: when no sequence of candidates within the implemented search bound
(length at most 7) has rounded sum equal to the rounded target, the search
returns the empty list — the embedding is a total function, no failure is
involved; in particular candidates {5} with whole-number target 12 yield the
empty result. -/
theorem findCombos_unreachable_empty (pr : List ℚ) (t : ℚ) (d : Bool)
    (h : ∀ p : List ℚ, (∀ x ∈ p, x ∈ pr) → p.length ≤ 7 →
      roundedSum d p ≠ specRound d t) :
    findCombos pr (some t) d = [] ∧ findCombos [(5:ℚ)] (some 12) false = [] := by
  constructor
  · by_contra hne
    rcases List.exists_mem_of_ne_nil _ hne with ⟨c, hc⟩
    rcases mem_findCombos.mp hc with ⟨p, hp, rfl⟩
    rcases mem_subsetSum_nil.mp hp with ⟨hmem, hsum, hpre⟩
    have hlen : p.length ≤ 7 := by
      by_contra hl
      push_neg at hl
      exact absurd ((hpre 7 (by omega)).2) (by omega)
    have hfix := specRound_eq_of_roundedSum hsum
    exact h p hmem hlen (by rw [hsum, hfix])
  · rw [findCombos_eval]
    decide

/-- C7 witness: candidates {5}, whole-number target 12 — every sequence of 5s
sums to a multiple of 5, never 12, and the result is empty. -/
theorem findCombos_unreachable_empty_witness :
    findCombos [(5:ℚ)] (some 12) false = [] := by
  refine (findCombos_unreachable_empty [(5:ℚ)] 12 false ?_).1
  intro p hmem _hlen
  have hrep : p = List.replicate p.length 5 :=
    List.eq_replicate_of_mem (fun b hb => by simpa using hmem b hb)
  have hsum : p.sum = (p.length : ℚ) * 5 := by
    conv_lhs => rw [hrep]
    rw [List.sum_replicate, nsmul_eq_mul]
  have hcast : p.sum = ((p.length * 5 : ℤ) : ℚ) := by
    rw [hsum]
    push_cast
    ring
  unfold roundedSum
  simp only [Bool.false_eq_true, if_false]
  rw [hcast, mathRound_intCast]
  have hsr : specRound false 12 = 12 := by decide
  rw [hsr]
  intro hEq
  have h12 : ((p.length * 5 : ℤ) : ℚ) = ((12 : ℤ) : ℚ) := by exact_mod_cast hEq
  have : (p.length * 5 : ℤ) = 12 := Int.cast_injective h12
  omega

/-- C8: for a returned combination (over non-negative candidates), every
proper prefix of its ascending-sorted sequence has a rounded sum strictly
below the rounded target, and the full sequence reaches it exactly.
(A returned combination's rounded sum equals the raw target, which forces the
target to be a fixed point of the mode's rounding, so "rounded target" and
target coincide here; sorting ascending only lowers prefix sums, and rounding
is monotone.) -/
theorem findCombos_prefix_below_target (pr : List ℚ) (t : ℚ) (d : Bool) (c : List ℚ)
    (hnn : ∀ x ∈ pr, 0 ≤ x) (hc : c ∈ findCombos pr (some t) d) :
    (∀ k, k < c.length → roundedSum d (c.take k) < specRound d t) ∧
      roundedSum d c = specRound d t :=
  prefix_lt_of_mem_findCombos hc

/-- C8 witness: candidates {1, 2}, whole-number target 3; the member [1, 2] has
its one-element prefix rounded sum 1 strictly below the rounded target 3. -/
theorem findCombos_prefix_below_target_witness :
    roundedSum false ([(1:ℚ), 2].take 1) < specRound false 3 :=
  (findCombos_prefix_below_target [(1:ℚ), 2] 3 false [1, 2] (by decide)
    (by rw [findCombos_eval]; decide)).1 1 (by decide)

/-- C9: the recursion of `subsetSum` terminates on every input: the search tree
is finite — branching is over the candidate list and the depth never exceeds 8
(recursion stops at partial length 7), so the fuel-indexed unfolding is stable:
any fuel of at least 8 computes the fuel-free (total, well-founded) recursion
exactly. -/
theorem subsetSum_terminates (pr : List ℚ) (T : Option ℚ) (d : Bool) (fuel : ℕ)
    (hfuel : 8 ≤ fuel) :
    subsetSumFuel fuel pr T d [] = subsetSum pr T d [] :=
  subsetSumFuel_eq_subsetSum pr T d fuel [] (by omega)
    (by simp only [List.length_nil]; omega)

/-- C9 witness: fuel 9 and the stable value agree on a concrete run. -/
theorem subsetSum_terminates_witness :
    subsetSumFuel 9 [(1:ℚ)] (some 2) false [] = subsetSum [(1:ℚ)] (some 2) false [] :=
  subsetSum_terminates [(1:ℚ)] (some 2) false 9 (by norm_num)

/-- C10 counterexample: the estimator mutates its input entity — after the call
on the concrete unknown-kind entity, the entity differs from its original
value (the first substat record has acquired a `weight` property). -/
theorem ratePower_mutates :
    (ratePower sampleData mysteryArtifact).1 ≠ mysteryArtifact := by
  decide

/-- C10 (amended): `ratePower` writes the looked-up weight onto the entity's
first attribute record in place (the callback executes `sub.weight = ...`
before the failing finder call aborts the traversal), so the entity is
returned with its first substat mutated and the rest untouched. -/
theorem ratePower_writes_first_weight (data : ArtifactData) (a : Artifact)
    (sub : Substat) (rest : List Substat) (hsubs : a.substats = sub :: rest) :
    (ratePower data a).1.substats =
      { sub with weight := some (data.SUBSTAT_WEIGHTING sub.stat) } :: rest ∧
      (ratePower data a).2 = some (JsError.typeError "findCombos is not a function") := by
  unfold ratePower
  rw [hsubs]
  exact ⟨rfl, rfl⟩

/-- C10 witness: the amended statement at the concrete entity. -/
theorem ratePower_writes_first_weight_witness :
    (ratePower sampleData mysteryArtifact).2 =
      some (JsError.typeError "findCombos is not a function") :=
  (ratePower_writes_first_weight sampleData mysteryArtifact _ _ rfl).2

end ClaimTheorems
